import Mathlib

/-!
Verification of the vidsum video-summarization pipeline.

Shallow embedding of the pure/algorithmic core of the repository:

* `create_video_chunks` (src/video_summary/video_processing_utils.py, lines 48-142):
  the segment planner.  The Python function also shells out to ffmpeg to cut each
  window into a chunk file; here we model the planned `(start_time, end_time)`
  windows, assuming every extraction succeeds (the chunk file path component is
  elided, it plays no role in the planner's arithmetic).  Python floats are
  modelled as rationals.
* `merge_chunk_summaries` (same file, lines 144-217): the merge reconciler.  The
  filesystem is modelled as a function `String → Option String` from path to
  contents (`none` = absent/unreadable), and "writes the merged file" is
  modelled by returning `some mergedText` (`none` = no file written).
* `_generate_individual_summaries` (src/video_summary/summarize_video.py,
  lines 66-122): the per-chunk summary writer; the remote summarization call is
  an oracle `Nat → String → Option String` (`none`/empty = no usable summary,
  matching Python's truthiness test `if summary_text:`).
* `process_single_video` (src/video_summary/summarize_video.py, lines 165-292):
  control flow of the per-video driver, with the external phase outcomes given
  by an oracle record `VideoRun`; the observable we verify is whether (and with
  which arguments) the terminal cleanup phase `_cleanup_processing_resources`
  (lines 124-162) runs.
* `adjust_overlap_duration` (src/video_summary/cli.py, lines 62-65): the
  overlap-clamping step of `parse_arguments`.

`os.path.join dir name` is modelled as `dir ++ "/" ++ name` (all joins in the
sources combine a relative file name with a directory path).  Python's
`str.split('/')` is modelled by the structurally recursive `splitOnChar` below,
which agrees with Python's semantics including empty strings and repeated
separators.
-/

/-- Constant `MIN_CHUNK_PROCESSING_THRESHOLD_SECONDS = 1.0`
(video_processing_utils.py, line 11). -/
def MIN_CHUNK_PROCESSING_THRESHOLD_SECONDS : ℚ := 1

/-- Python `base_segment_start_time = k * base_content_length`
(video_processing_utils.py, line 104). -/
def baseSegmentStart (baseContentLength : ℚ) (k : ℕ) : ℚ :=
  (k : ℚ) * baseContentLength

/-- Python `base_segment_end_time = min((k + 1) * base_content_length, video_duration)`
(video_processing_utils.py, line 105). -/
def baseSegmentEnd (videoDuration baseContentLength : ℚ) (k : ℕ) : ℚ :=
  min (((k : ℚ) + 1) * baseContentLength) videoDuration

/-- Python `ffmpeg_final_ss = max(0.0, base_segment_start_time - overlap_padding)`
(video_processing_utils.py, line 112). -/
def ffmpegFinalSs (baseContentLength overlapPadding : ℚ) (k : ℕ) : ℚ :=
  max 0 (baseSegmentStart baseContentLength k - overlapPadding)

/-- Python `ffmpeg_final_end_point = min(video_duration, base_segment_end_time + overlap_padding)`
(video_processing_utils.py, line 113). -/
def ffmpegFinalEndPoint (videoDuration baseContentLength overlapPadding : ℚ) (k : ℕ) : ℚ :=
  min videoDuration (baseSegmentEnd videoDuration baseContentLength k + overlapPadding)

/-- Python `ffmpeg_final_t = ffmpeg_final_end_point - ffmpeg_final_ss`
(video_processing_utils.py, line 114). -/
def ffmpegFinalT (videoDuration baseContentLength overlapPadding : ℚ) (k : ℕ) : ℚ :=
  ffmpegFinalEndPoint videoDuration baseContentLength overlapPadding k -
    ffmpegFinalSs baseContentLength overlapPadding k

/-- The `for k in range(num_base_segments)` loop of `create_video_chunks`
(video_processing_utils.py, lines 102-135), assuming every ffmpeg extraction
succeeds.  `fuel` is the number of remaining loop iterations, `k` the current
index.  The first `if` is the `break` at line 108-109, the second the
sub-threshold `continue` at lines 117-119; otherwise the window
`(ffmpeg_final_ss, ffmpeg_final_ss + ffmpeg_final_t)` is appended (line 133). -/
def chunkSegments (videoDuration baseContentLength overlapPadding : ℚ) :
    ℕ → ℕ → List (ℚ × ℚ)
  | 0, _ => []
  | fuel + 1, k =>
    if baseSegmentStart baseContentLength k ≥ videoDuration ∨
        baseSegmentStart baseContentLength k ≥ baseSegmentEnd videoDuration baseContentLength k then
      []
    else if ffmpegFinalT videoDuration baseContentLength overlapPadding k <
        MIN_CHUNK_PROCESSING_THRESHOLD_SECONDS then
      chunkSegments videoDuration baseContentLength overlapPadding fuel (k + 1)
    else
      (ffmpegFinalSs baseContentLength overlapPadding k,
        ffmpegFinalSs baseContentLength overlapPadding k +
          ffmpegFinalT videoDuration baseContentLength overlapPadding k) ::
        chunkSegments videoDuration baseContentLength overlapPadding fuel (k + 1)

/-- Python `num_base_segments = math.ceil(video_duration / base_content_length)`
followed by `if num_base_segments == 0: num_base_segments = 1`
(video_processing_utils.py, lines 97-99). -/
def numSegments (videoDuration baseContentLength : ℚ) : ℕ :=
  let n0 := ⌈videoDuration / baseContentLength⌉.toNat
  if n0 = 0 then 1 else n0

/-- Segment planner `create_video_chunks` (video_processing_utils.py,
lines 48-142), returning the planned `(start_time, end_time)` windows assuming
every extraction succeeds.  The outer `if` is line 82
(`args.max_chunk_duration > 0 and video_duration > args.max_chunk_duration`);
`base_content_length = max_chunk_duration - overlap_duration` (line 87) and
`overlap_padding = overlap_duration / 2` (line 84); the `base_content_length <= 0`
fallback (lines 89-94) and the no-chunking branch (lines 136-141) each copy the
whole video as the single window `(0, video_duration)`. -/
def create_video_chunks (videoDuration maxChunkDuration overlapDuration : ℚ) :
    List (ℚ × ℚ) :=
  if 0 < maxChunkDuration ∧ maxChunkDuration < videoDuration then
    if maxChunkDuration - overlapDuration ≤ 0 then
      [(0, videoDuration)]
    else
      chunkSegments videoDuration (maxChunkDuration - overlapDuration)
        (overlapDuration / 2)
        (numSegments videoDuration (maxChunkDuration - overlapDuration)) 0
  else
    [(0, videoDuration)]

/-- The windows' start times are strictly increasing along the list. -/
def startsStrictlyIncreasing (ws : List (ℚ × ℚ)) : Prop :=
  ws.Chain' fun a b => a.1 < b.1

instance (ws : List (ℚ × ℚ)) : Decidable (startsStrictlyIncreasing ws) := by
  unfold startsStrictlyIncreasing; infer_instance

/-- Consecutive windows leave no gap: each next window's start is at most the
previous window's end. -/
def noGaps (ws : List (ℚ × ℚ)) : Prop :=
  ws.Chain' fun a b => b.1 ≤ a.2

instance (ws : List (ℚ × ℚ)) : Decidable (noGaps ws) := by
  unfold noGaps; infer_instance

/-- Every point of `[0, duration)` is inside some window, except possibly
points within less than the 1-second minimum-viable-chunk threshold of the end
of the video (the discarded sub-threshold tail). -/
def coversExceptSubThresholdTail (ws : List (ℚ × ℚ)) (videoDuration : ℚ) : Prop :=
  ∀ x : ℚ, 0 ≤ x → x < videoDuration →
    (∃ w ∈ ws, w.1 ≤ x ∧ x < w.2) ∨ videoDuration - x < 1

/-- Claim C5: if `target_length ≤ 0` or `duration ≤ target_length`, the segment
planner returns exactly one window spanning `(0, duration)`
(video_processing_utils.py, lines 82 and 136-141). -/
theorem C5_single_window (d t o : ℚ) (hd : 0 < d) (h : t ≤ 0 ∨ d ≤ t) :
    create_video_chunks d t o = [(0, d)] := by
  have hcond : ¬ (0 < t ∧ t < d) := by
    rcases h with h | h
    · exact fun hc => absurd hc.1 (not_lt.mpr h)
    · exact fun hc => absurd hc.2 (not_lt.mpr h)
  unfold create_video_chunks
  rw [if_neg hcond]

/-- Claim C5 witness: the spec's own example `duration=100s, target=900s`
yields the single segment `(0, 100)`. -/
theorem C5_single_window_witness : create_video_chunks 100 900 60 = [(0, 100)] :=
  C5_single_window 100 900 60 (by norm_num) (Or.inr (by norm_num))

/-- Claim C6: for `duration > target_length > 0` with
`core = target_length - overlap ≤ 0`, the planner does not abort: it falls back
to the single whole-video segment `(0, duration)` (video_processing_utils.py,
lines 89-94). -/
theorem C6_overlap_fallback (d t o : ℚ) (ht : 0 < t) (htd : t < d)
    (hcore : t - o ≤ 0) : create_video_chunks d t o = [(0, d)] := by
  unfold create_video_chunks
  rw [if_pos ⟨ht, htd⟩, if_pos hcore]

/-- Claim C6 witness: `duration=20, target=10, overlap=10` gives `core = 0 ≤ 0`
and the planner returns the single whole-video window. -/
theorem C6_overlap_fallback_witness : create_video_chunks 20 10 10 = [(0, 20)] :=
  C6_overlap_fallback 20 10 10 (by norm_num) (by norm_num) (by norm_num)

/-- Claim C2 counterexample: at `duration = 4`, `target_length = 3`,
`overlap = 2` (all hypotheses of the claim hold, in particular
`0 ≤ overlap < target_length` and `target_length - overlap = 1 > 0`) the
planner produces the windows `[(0,2), (0,3), (1,4), (2,4)]`: the first two
windows share the start time `0`, so the starts are not strictly increasing. -/
theorem C2_counterexample :
    ((0:ℚ) < 4 ∧ (0:ℚ) < 3 ∧ (0:ℚ) ≤ 2 ∧ (2:ℚ) < 3 ∧ (0:ℚ) < 3 - 2) ∧
    create_video_chunks 4 3 2 = [(0, 2), (0, 3), (1, 4), (2, 4)] ∧
    ¬ startsStrictlyIncreasing (create_video_chunks 4 3 2) := by
  have h1 : numSegments 4 (3 - 2) = 4 := by unfold numSegments; norm_num; rfl
  have hlist : create_video_chunks 4 3 2 = [(0, 2), (0, 3), (1, 4), (2, 4)] := by
    unfold create_video_chunks
    rw [if_pos (by norm_num), if_neg (by norm_num), h1]
    norm_num [chunkSegments, baseSegmentStart, baseSegmentEnd, ffmpegFinalSs,
      ffmpegFinalEndPoint, ffmpegFinalT, MIN_CHUNK_PROCESSING_THRESHOLD_SECONDS,
      max_def, min_def]
  refine ⟨by norm_num, hlist, ?_⟩
  rw [hlist]
  intro hchain
  rcases hchain with _ | ⟨hlt, _⟩
  exact absurd hlt (by norm_num)

/-- Claim C3 counterexample: at `duration = 21/2`, `target_length = 10`,
`overlap = 0` (all hypotheses of the claim hold) the trailing half-second
window is discarded as sub-threshold, so the planner returns the single window
`(0, 10)` whose end `10` differs from the duration `21/2`. -/
theorem C3_counterexample :
    ((0:ℚ) < 21/2 ∧ (0:ℚ) < 10 ∧ (0:ℚ) ≤ 0 ∧ (0:ℚ) < 10 ∧ (0:ℚ) < 10 - 0) ∧
    create_video_chunks (21/2) 10 0 = [(0, 10)] ∧
    ((create_video_chunks (21/2) 10 0).getLastD (0, 0)).2 ≠ 21/2 := by
  have hceil : ⌈(21/2 : ℚ) / (10 - 0)⌉ = 2 := by
    rw [Int.ceil_eq_iff] <;> norm_num
  have h1 : numSegments (21/2) (10 - 0) = 2 := by
    unfold numSegments
    rw [hceil]
    rfl
  have hlist : create_video_chunks (21/2) 10 0 = [(0, 10)] := by
    unfold create_video_chunks
    rw [if_pos (by norm_num), if_neg (by norm_num), h1]
    norm_num [chunkSegments, baseSegmentStart, baseSegmentEnd, ffmpegFinalSs,
      ffmpegFinalEndPoint, ffmpegFinalT, MIN_CHUNK_PROCESSING_THRESHOLD_SECONDS,
      max_def, min_def]
  refine ⟨by norm_num, hlist, ?_⟩
  rw [hlist]
  norm_num [List.getLastD]

/-- Claim C4 counterexample: at `duration = 2`, `target_length = 6/5`,
`overlap = 7/10` (all hypotheses of the claim hold) the planner discards the
first planned window (its padded length `17/20` is sub-threshold) and returns
`[(3/20, 27/20), (13/20, 37/20)]`.  The point `0` of `[0, duration)` is covered
by no window (both starts exceed `0`), yet it is not in a trailing tail: it is
a full `2 ≥ 1` seconds away from the end of the video. -/
theorem C4_counterexample :
    ((0:ℚ) < 2 ∧ (0:ℚ) < 6/5 ∧ (0:ℚ) ≤ 7/10 ∧ (7:ℚ)/10 < 6/5 ∧ (0:ℚ) < 6/5 - 7/10) ∧
    create_video_chunks 2 (6/5) (7/10) = [(3/20, 27/20), (13/20, 37/20)] ∧
    ¬ ((3:ℚ)/20 ≤ 0) ∧ ¬ ((13:ℚ)/20 ≤ 0) ∧ (0:ℚ) ≤ 0 ∧ (0:ℚ) < 2 ∧
    ¬ ((2:ℚ) - 0 < 1) := by
  have h1 : numSegments 2 (6/5 - 7/10) = 4 := by unfold numSegments; norm_num; rfl
  have hlist : create_video_chunks 2 (6/5) (7/10) = [(3/20, 27/20), (13/20, 37/20)] := by
    unfold create_video_chunks
    rw [if_pos (by norm_num), if_neg (by norm_num), h1]
    norm_num [chunkSegments, baseSegmentStart, baseSegmentEnd, ffmpegFinalSs,
      ffmpegFinalEndPoint, ffmpegFinalT, MIN_CHUNK_PROCESSING_THRESHOLD_SECONDS,
      max_def, min_def]
  exact ⟨by norm_num, hlist, by norm_num, by norm_num, le_refl 0, by norm_num, by norm_num⟩

/-- The padded start `ffmpeg_final_ss` is monotone in the segment index. -/
theorem ffmpegFinalSs_mono (b p : ℚ) (hb : 0 ≤ b) (k : ℕ) :
    ffmpegFinalSs b p k ≤ ffmpegFinalSs b p (k + 1) := by
  unfold ffmpegFinalSs baseSegmentStart
  apply max_le_max le_rfl
  push_cast
  nlinarith [Nat.cast_nonneg (α := ℚ) k]

/-- When the overlap padding is strictly smaller than the core content length,
the padded start `ffmpeg_final_ss` is strictly monotone in the segment index. -/
theorem ffmpegFinalSs_strictMono (b p : ℚ) (hp : 0 ≤ p) (hpb : p < b) (k : ℕ) :
    ffmpegFinalSs b p k < ffmpegFinalSs b p (k + 1) := by
  unfold ffmpegFinalSs baseSegmentStart
  push_cast
  have hkb : 0 ≤ (k : ℚ) * b := by
    have := Nat.cast_nonneg (α := ℚ) k
    nlinarith
  have h2 : max 0 ((k : ℚ) * b - p) < ((k : ℚ) + 1) * b - p := by
    apply max_lt
    · nlinarith
    · nlinarith
  exact lt_of_lt_of_le h2 (le_max_right _ _)

/-- Every window produced from loop index `k` onwards starts at or after the
padded start of segment `k`. -/
theorem chunkSegments_start_lb (d b p : ℚ) (hb : 0 ≤ b) :
    ∀ fuel k : ℕ, ∀ w ∈ chunkSegments d b p fuel k, ffmpegFinalSs b p k ≤ w.1 := by
  intro fuel
  induction fuel with
  | zero => intro k w hw; simp [chunkSegments] at hw
  | succ fuel ih =>
    intro k w hw
    rw [chunkSegments] at hw
    split at hw
    · simp at hw
    · split at hw
      · exact le_trans (ffmpegFinalSs_mono b p hb k) (ih (k + 1) w hw)
      · rcases List.mem_cons.mp hw with hw | hw
        · rw [hw]
        · exact le_trans (ffmpegFinalSs_mono b p hb k) (ih (k + 1) w hw)

/-- With overlap padding strictly below the core content length, the kept
windows' start times are strictly increasing. -/
theorem chunkSegments_starts_chain (d b p : ℚ) (hb : 0 < b) (hp : 0 ≤ p)
    (hpb : p < b) :
    ∀ fuel k : ℕ, (chunkSegments d b p fuel k).Chain' fun a c => a.1 < c.1 := by
  intro fuel
  induction fuel with
  | zero => intro k; simp [chunkSegments]
  | succ fuel ih =>
    intro k
    rw [chunkSegments]
    split
    · exact List.chain'_nil
    · split
      · exact ih (k + 1)
      · rw [List.chain'_cons']
        refine ⟨?_, ih (k + 1)⟩
        intro y hy
        have hy' : y ∈ chunkSegments d b p fuel (k + 1) := List.mem_of_mem_head? hy
        have hlb := chunkSegments_start_lb d b p hb.le fuel (k + 1) y hy'
        show ffmpegFinalSs b p k < y.1
        exact lt_of_lt_of_le (ffmpegFinalSs_strictMono b p hp hpb k) hlb

/-- Claim C2, amended: under the claim's hypotheses and the additional
hypothesis `3 * overlap < 2 * target_length` (equivalently, the overlap
padding `overlap/2` is smaller than the core length `target_length - overlap`;
the counterexample `C2_counterexample` shows the claim fails without it), the
planner's windows are strictly increasing in start time. -/
theorem C2_amended (d t o : ℚ) (hd : 0 < d) (ht : 0 < t) (ho : 0 ≤ o)
    (hot : o < t) (hcore : 0 < t - o) (hstrict : 3 * o < 2 * t) :
    startsStrictlyIncreasing (create_video_chunks d t o) := by
  unfold create_video_chunks startsStrictlyIncreasing
  by_cases hcond : 0 < t ∧ t < d
  · rw [if_pos hcond, if_neg (by linarith)]
    exact chunkSegments_starts_chain d (t - o) (o / 2) (by linarith) (by linarith)
      (by linarith) _ 0
  · rw [if_neg hcond]
    exact List.chain'_singleton _

/-- Claim C2 amended witness: the spec's worked example
`duration=1000, target=300, overlap=60` has strictly increasing starts. -/
theorem C2_amended_witness :
    startsStrictlyIncreasing (create_video_chunks 1000 300 60) :=
  C2_amended 1000 300 60 (by norm_num) (by norm_num) (by norm_num) (by norm_num)
    (by norm_num) (by norm_num)

/-- `num_base_segments` is at least `1` (video_processing_utils.py,
lines 98-99 force it to `1` when the ceiling is `0`). -/
theorem numSegments_pos (d b : ℚ) : 1 ≤ numSegments d b := by
  unfold numSegments
  simp only []
  split
  · exact le_refl 1
  · omega

/-- Bounds from `num_base_segments = ceil(video_duration / base_content_length)`:
the segments reach the duration (`d ≤ n * b`) and every index below `n` starts
strictly inside the video (`k * b < d`). -/
theorem numSegments_facts (d b : ℚ) (hd : 0 < d) (hb : 0 < b) :
    d ≤ (numSegments d b : ℚ) * b ∧
      ∀ k : ℕ, k < numSegments d b → (k : ℚ) * b < d := by
  have hpos : (0 : ℤ) < ⌈d / b⌉ := Int.ceil_pos.mpr (div_pos hd hb)
  have htoNat : (⌈d / b⌉.toNat : ℤ) = ⌈d / b⌉ := Int.toNat_of_nonneg hpos.le
  have hne : ⌈d / b⌉.toNat ≠ 0 := by omega
  have hnum : numSegments d b = ⌈d / b⌉.toNat := by
    unfold numSegments
    simp [hne]
  constructor
  · rw [hnum]
    have h1 : d / b ≤ ((⌈d / b⌉.toNat : ℤ) : ℚ) := by
      rw [htoNat]; exact Int.le_ceil _
    have h2 := (div_le_iff hb).mp h1
    push_cast at h2 ⊢
    linarith
  · intro k hk
    rw [hnum] at hk
    have hkz : (k : ℤ) < ⌈d / b⌉ := by omega
    have h1 : (k : ℚ) < d / b := by
      exact_mod_cast Int.lt_ceil.mp hkz
    exact (lt_div_iff hb).mp h1

/-- The padded start of segment `k` is at most the core start `k * b`. -/
theorem ffmpegFinalSs_le (b p : ℚ) (hb : 0 ≤ b) (hp : 0 ≤ p) (k : ℕ) :
    ffmpegFinalSs b p k ≤ (k : ℚ) * b := by
  unfold ffmpegFinalSs baseSegmentStart
  apply max_le (mul_nonneg (Nat.cast_nonneg k) hb)
  linarith

/-- The padded start of segment `0` is exactly `0`. -/
theorem ffmpegFinalSs_zero (b p : ℚ) (hp : 0 ≤ p) : ffmpegFinalSs b p 0 = 0 := by
  unfold ffmpegFinalSs baseSegmentStart
  push_cast
  rw [zero_mul, zero_sub]
  exact max_eq_left (by linarith)

/-- For a non-final segment (`(k+1) * b < d`), the padded end point is at least
the core end `(k+1) * b`. -/
theorem ffmpegFinalEndPoint_ge (d b p : ℚ) (hp : 0 ≤ p) (k : ℕ)
    (hk : ((k + 1 : ℕ) : ℚ) * b < d) :
    ((k + 1 : ℕ) : ℚ) * b ≤ ffmpegFinalEndPoint d b p k := by
  unfold ffmpegFinalEndPoint baseSegmentEnd
  push_cast at hk ⊢
  rw [min_eq_left hk.le]
  exact le_min hk.le (by linarith)

/-- The padded end point never exceeds the video duration. -/
theorem ffmpegFinalEndPoint_le (d b p : ℚ) (k : ℕ) :
    ffmpegFinalEndPoint d b p k ≤ d := by
  unfold ffmpegFinalEndPoint
  exact min_le_left _ _

/-- For the final segment (`d ≤ (k+1) * b`), the padded end point is exactly
the video duration. -/
theorem ffmpegFinalEndPoint_last (d b p : ℚ) (hp : 0 ≤ p) (k : ℕ)
    (hk : d ≤ ((k + 1 : ℕ) : ℚ) * b) :
    ffmpegFinalEndPoint d b p k = d := by
  unfold ffmpegFinalEndPoint baseSegmentEnd
  push_cast at hk
  rw [min_eq_right hk]
  exact min_eq_left (by linarith)

/-- The stored window end `ffmpeg_final_ss + ffmpeg_final_t` equals the padded
end point. -/
theorem storedEnd_eq (d b p : ℚ) (k : ℕ) :
    ffmpegFinalSs b p k + ffmpegFinalT d b p k = ffmpegFinalEndPoint d b p k := by
  unfold ffmpegFinalT
  ring

/-- The loop's `break` condition is false at every index that starts strictly
inside the video. -/
theorem chunkSegments_no_break (d b : ℚ) (hb : 0 < b) (k : ℕ)
    (hk : (k : ℚ) * b < d) :
    ¬ (baseSegmentStart b k ≥ d ∨ baseSegmentStart b k ≥ baseSegmentEnd d b k) := by
  unfold baseSegmentStart baseSegmentEnd
  push_neg
  refine ⟨hk, lt_min ?_ hk⟩
  nlinarith [Nat.cast_nonneg (α := ℚ) k]

/-- Once the core start reaches the duration, the loop breaks and produces
nothing. -/
theorem chunkSegments_nil_of_ge (d b p : ℚ) (fuel k : ℕ) (hk : d ≤ (k : ℚ) * b) :
    chunkSegments d b p fuel k = [] := by
  cases fuel with
  | zero => rfl
  | succ fuel =>
    rw [chunkSegments, if_pos (Or.inl (show baseSegmentStart b k ≥ d from hk))]

/-- When the core content length is at least the 1-second threshold and segment
`k` is not the final one, the window of segment `k` is kept. -/
theorem chunkSegments_kept_step (d b p : ℚ) (hb1 : 1 ≤ b) (hp : 0 ≤ p)
    (fuel k : ℕ) (hk1 : (k : ℚ) * b < d) (hk2 : ((k + 1 : ℕ) : ℚ) * b < d) :
    chunkSegments d b p (fuel + 1) k =
      (ffmpegFinalSs b p k, ffmpegFinalSs b p k + ffmpegFinalT d b p k) ::
        chunkSegments d b p fuel (k + 1) := by
  rw [chunkSegments, if_neg (chunkSegments_no_break d b (by linarith) k hk1)]
  rw [if_neg]
  unfold MIN_CHUNK_PROCESSING_THRESHOLD_SECONDS
  push_neg
  have h1 := ffmpegFinalSs_le b p (by linarith) hp k
  have h2 := ffmpegFinalEndPoint_ge d b p hp k hk2
  unfold ffmpegFinalT
  push_cast at h2
  nlinarith

/-- For the final segment, the loop step reduces to a single window ending at
the duration, kept iff its padded length `d - ffmpeg_final_ss` reaches the
threshold. -/
theorem chunkSegments_last_step (d b p : ℚ) (hb : 0 < b) (hp : 0 ≤ p)
    (fuel k : ℕ) (hk1 : (k : ℚ) * b < d) (hk2 : d ≤ ((k + 1 : ℕ) : ℚ) * b) :
    chunkSegments d b p (fuel + 1) k =
      if d - ffmpegFinalSs b p k < 1 then []
      else [(ffmpegFinalSs b p k, ffmpegFinalSs b p k + (d - ffmpegFinalSs b p k))] := by
  have hep : ffmpegFinalEndPoint d b p k = d := ffmpegFinalEndPoint_last d b p hp k hk2
  have ht : ffmpegFinalT d b p k = d - ffmpegFinalSs b p k := by
    unfold ffmpegFinalT
    rw [hep]
  have hrest : chunkSegments d b p fuel (k + 1) = [] :=
    chunkSegments_nil_of_ge d b p fuel (k + 1) hk2
  rw [chunkSegments, if_neg (chunkSegments_no_break d b hb k hk1), ht, hrest]
  unfold MIN_CHUNK_PROCESSING_THRESHOLD_SECONDS
  rfl

/-- Under the `base ≥ 1` regime, whenever the loop from `(fuel, k)` (with the
invariant `fuel + k = n`) produces a nonempty list, its head starts at
`ffmpeg_final_ss k`. -/
theorem chunkSegments_head_start (d b p : ℚ) (hb1 : 1 ≤ b) (hp : 0 ≤ p)
    (n : ℕ) (hnb : d ≤ (n : ℚ) * b) (hlt : ∀ j : ℕ, j < n → (j : ℚ) * b < d) :
    ∀ fuel k : ℕ, fuel + k = n → ∀ w ws, chunkSegments d b p fuel k = w :: ws →
      w.1 = ffmpegFinalSs b p k := by
  intro fuel k hinv w ws hw
  cases fuel with
  | zero => simp [chunkSegments] at hw
  | succ fuel =>
    have hk1 : (k : ℚ) * b < d := hlt k (by omega)
    cases fuel with
    | zero =>
      have hk2 : d ≤ ((k + 1 : ℕ) : ℚ) * b := by
        have hn : n = k + 1 := by omega
        rw [← hn]
        exact hnb
      rw [chunkSegments_last_step d b p (by linarith) hp 0 k hk1 hk2] at hw
      split at hw
      · simp at hw
      · rw [List.cons.injEq] at hw
        rw [← hw.1]
    | succ fuel =>
      have hk2 : ((k + 1 : ℕ) : ℚ) * b < d := hlt (k + 1) (by omega)
      rw [chunkSegments_kept_step d b p hb1 hp (fuel + 1) k hk1 hk2] at hw
      rw [List.cons.injEq] at hw
      rw [← hw.1]

/-- Under the `base ≥ 1` regime the planner's loop always keeps at least the
first window. -/
theorem chunkSegments_ne_nil (d b p : ℚ) (hb1 : 1 ≤ b) (hp : 0 ≤ p)
    (n : ℕ) (hn : 1 ≤ n) (hd1 : 1 < d) (hnb : d ≤ (n : ℚ) * b)
    (hlt : ∀ j : ℕ, j < n → (j : ℚ) * b < d) :
    chunkSegments d b p n 0 ≠ [] := by
  have hk1 : ((0 : ℕ) : ℚ) * b < d := by
    push_cast
    linarith
  cases n with
  | zero => omega
  | succ n =>
    cases n with
    | zero =>
      have hk2 : d ≤ ((0 + 1 : ℕ) : ℚ) * b := by
        have := hnb
        push_cast at this ⊢
        linarith
      rw [chunkSegments_last_step d b p (by linarith) hp 0 0 hk1 hk2]
      rw [if_neg]
      · exact List.cons_ne_nil _ _
      · rw [ffmpegFinalSs_zero b p hp]
        push_neg
        linarith
    | succ n =>
      have hk2 : ((0 + 1 : ℕ) : ℚ) * b < d := hlt 1 (by omega)
      rw [chunkSegments_kept_step d b p hb1 hp (n + 1) 0 hk1 hk2]
      exact List.cons_ne_nil _ _

/-- Under the `base ≥ 1` regime, the last kept window ends at most at the
duration and within less than the 1-second threshold of it (exactly at it
unless the final sub-threshold window was discarded). -/
theorem chunkSegments_last_end (d b p : ℚ) (hb1 : 1 ≤ b) (hp : 0 ≤ p)
    (n : ℕ) (hnb : d ≤ (n : ℚ) * b) (hlt : ∀ j : ℕ, j < n → (j : ℚ) * b < d) :
    ∀ fuel k : ℕ, fuel + k = n →
      ∀ w, (chunkSegments d b p fuel k).getLast? = some w →
        w.2 ≤ d ∧ d - w.2 < 1 := by
  intro fuel
  induction fuel with
  | zero =>
    intro k hinv w hw
    simp [chunkSegments] at hw
  | succ fuel ih =>
    intro k hinv w hw
    have hk1 : (k : ℚ) * b < d := hlt k (by omega)
    cases fuel with
    | zero =>
      have hk2 : d ≤ ((k + 1 : ℕ) : ℚ) * b := by
        have hn : n = k + 1 := by omega
        rw [← hn]
        exact hnb
      rw [chunkSegments_last_step d b p (by linarith) hp 0 k hk1 hk2] at hw
      split at hw
      · simp at hw
      · simp only [List.getLast?_singleton, Option.some.injEq] at hw
        subst hw
        constructor
        · show ffmpegFinalSs b p k + (d - ffmpegFinalSs b p k) ≤ d
          linarith
        · show d - (ffmpegFinalSs b p k + (d - ffmpegFinalSs b p k)) < 1
          linarith
    | succ f =>
      have hk2 : ((k + 1 : ℕ) : ℚ) * b < d := hlt (k + 1) (by omega)
      rw [chunkSegments_kept_step d b p hb1 hp (f + 1) k hk1 hk2] at hw
      rcases hr : chunkSegments d b p (f + 1) (k + 1) with _ | ⟨y, ys⟩
      · rw [hr] at hw
        simp only [List.getLast?_singleton, Option.some.injEq] at hw
        subst hw
        cases f with
        | zero =>
          have hk1' : ((k + 1 : ℕ) : ℚ) * b < d := hlt (k + 1) (by omega)
          have hk2' : d ≤ ((k + 1 + 1 : ℕ) : ℚ) * b := by
            have hn : n = k + 2 := by omega
            rw [← hn]
            exact hnb
          rw [chunkSegments_last_step d b p (by linarith) hp 0 (k + 1) hk1' hk2'] at hr
          split at hr
          case isTrue hskip =>
            have h1 := ffmpegFinalSs_le b p (by linarith) hp (k + 1)
            have h2 := ffmpegFinalEndPoint_ge d b p hp k hk2
            have h3 := storedEnd_eq d b p k
            have h4 := ffmpegFinalEndPoint_le d b p k
            constructor
            · show ffmpegFinalSs b p k + ffmpegFinalT d b p k ≤ d
              linarith
            · show d - (ffmpegFinalSs b p k + ffmpegFinalT d b p k) < 1
              linarith
          case isFalse hkeep =>
            simp at hr
        | succ f' =>
          have hk1' : ((k + 1 : ℕ) : ℚ) * b < d := hlt (k + 1) (by omega)
          have hk2' : ((k + 1 + 1 : ℕ) : ℚ) * b < d := hlt (k + 2) (by omega)
          rw [chunkSegments_kept_step d b p hb1 hp (f' + 1) (k + 1) hk1' hk2'] at hr
          exact absurd hr (List.cons_ne_nil _ _)
      · rw [hr] at hw
        rw [List.getLast?_cons_cons] at hw
        exact ih (k + 1) (by omega) w (by rw [hr]; exact hw)

/-- Claim C3, amended: under the claim's hypotheses and the additional
hypothesis `1 ≤ target_length - overlap` (satisfied by every CLI configuration,
whose durations are integers; the counterexample `C3_counterexample` shows the
claim as stated fails), the planner returns a nonempty window list whose last
window ends at most at `duration` and within less than the 1-second
minimum-viable-chunk threshold of it — exactly at `duration` unless the final
sub-threshold tail window was discarded. -/
theorem C3_amended (d t o : ℚ) (hd : 0 < d) (ht : 0 < t) (ho : 0 ≤ o)
    (hot : o < t) (hbase : 1 ≤ t - o) :
    create_video_chunks d t o ≠ [] ∧
    ((create_video_chunks d t o).getLastD (0, 0)).2 ≤ d ∧
    d - ((create_video_chunks d t o).getLastD (0, 0)).2 < 1 := by
  by_cases hcond : 0 < t ∧ t < d
  · have hbpos : (0 : ℚ) < t - o := by linarith
    have hppos : (0 : ℚ) ≤ o / 2 := by linarith
    obtain ⟨hnb, hlt⟩ := numSegments_facts d (t - o) hd hbpos
    have hd1 : 1 < d := by linarith [hcond.2]
    have hne := chunkSegments_ne_nil d (t - o) (o / 2) hbase hppos
      (numSegments d (t - o)) (numSegments_pos d (t - o)) hd1 hnb hlt
    have hlist : create_video_chunks d t o =
        chunkSegments d (t - o) (o / 2) (numSegments d (t - o)) 0 := by
      unfold create_video_chunks
      rw [if_pos hcond, if_neg (by linarith)]
    rw [hlist]
    refine ⟨hne, ?_⟩
    rcases hlast : (chunkSegments d (t - o) (o / 2) (numSegments d (t - o)) 0).getLast? with _ | w
    · exact absurd (List.getLast?_eq_none_iff.mp hlast) hne
    · have hbound := chunkSegments_last_end d (t - o) (o / 2) hbase hppos
        (numSegments d (t - o)) hnb hlt (numSegments d (t - o)) 0 (by omega) w hlast
      rw [List.getLastD_eq_getLast?, hlast]
      exact hbound
  · have hlist : create_video_chunks d t o = [(0, d)] := by
      unfold create_video_chunks
      rw [if_neg hcond]
    rw [hlist]
    refine ⟨by simp, ?_, ?_⟩
    · simp
    · simp

/-- Claim C3 amended witness: at `duration=1000, target=300, overlap=60` the
planner's last window ends within a second of (here: exactly at) `1000`. -/
theorem C3_amended_witness :
    create_video_chunks 1000 300 60 ≠ [] ∧
    ((create_video_chunks 1000 300 60).getLastD (0, 0)).2 ≤ 1000 ∧
    1000 - ((create_video_chunks 1000 300 60).getLastD (0, 0)).2 < 1 :=
  C3_amended 1000 300 60 (by norm_num) (by norm_num) (by norm_num) (by norm_num)
    (by norm_num)

/-- Under the `base ≥ 1` regime, consecutive kept windows leave no gap: each
next window starts at or before the previous window's end. -/
theorem chunkSegments_noGaps (d b p : ℚ) (hb1 : 1 ≤ b) (hp : 0 ≤ p)
    (n : ℕ) (hnb : d ≤ (n : ℚ) * b) (hlt : ∀ j : ℕ, j < n → (j : ℚ) * b < d) :
    ∀ fuel k : ℕ, fuel + k = n →
      (chunkSegments d b p fuel k).Chain' fun a c => c.1 ≤ a.2 := by
  intro fuel
  induction fuel with
  | zero => intro k hinv; simp [chunkSegments]
  | succ fuel ih =>
    intro k hinv
    have hk1 : (k : ℚ) * b < d := hlt k (by omega)
    cases fuel with
    | zero =>
      have hk2 : d ≤ ((k + 1 : ℕ) : ℚ) * b := by
        have hn : n = k + 1 := by omega
        rw [← hn]
        exact hnb
      rw [chunkSegments_last_step d b p (by linarith) hp 0 k hk1 hk2]
      split
      · exact List.chain'_nil
      · exact List.chain'_singleton _
    | succ f =>
      have hk2 : ((k + 1 : ℕ) : ℚ) * b < d := hlt (k + 1) (by omega)
      rw [chunkSegments_kept_step d b p hb1 hp (f + 1) k hk1 hk2]
      rw [List.chain'_cons']
      refine ⟨?_, ih (k + 1) (by omega)⟩
      intro y hy
      rcases hr : chunkSegments d b p (f + 1) (k + 1) with _ | ⟨z, zs⟩
      · rw [hr] at hy
        simp at hy
      · rw [hr] at hy
        simp only [List.head?_cons, Option.mem_def, Option.some.injEq] at hy
        subst hy
        have hz := chunkSegments_head_start d b p hb1 hp n hnb hlt (f + 1) (k + 1)
          (by omega) z zs hr
        show z.1 ≤ ffmpegFinalSs b p k + ffmpegFinalT d b p k
        rw [hz]
        have h1 := ffmpegFinalSs_le b p (by linarith) hp (k + 1)
        have h2 := ffmpegFinalEndPoint_ge d b p hp k hk2
        have h3 := storedEnd_eq d b p k
        linarith

/-- Under the `base ≥ 1` regime, every point from the current padded start up
to the duration is covered by a kept window, except possibly points within
less than the 1-second threshold of the end of the video. -/
theorem chunkSegments_covers (d b p : ℚ) (hb1 : 1 ≤ b) (hp : 0 ≤ p)
    (n : ℕ) (hnb : d ≤ (n : ℚ) * b) (hlt : ∀ j : ℕ, j < n → (j : ℚ) * b < d) :
    ∀ fuel k : ℕ, 1 ≤ fuel → fuel + k = n →
      ∀ x : ℚ, ffmpegFinalSs b p k ≤ x → x < d →
        (∃ w ∈ chunkSegments d b p fuel k, w.1 ≤ x ∧ x < w.2) ∨ d - x < 1 := by
  intro fuel
  induction fuel with
  | zero => intro k h1; exact absurd h1 (by omega)
  | succ fuel ih =>
    intro k hf hinv x hx hxd
    have hk1 : (k : ℚ) * b < d := hlt k (by omega)
    cases fuel with
    | zero =>
      have hk2 : d ≤ ((k + 1 : ℕ) : ℚ) * b := by
        have hn : n = k + 1 := by omega
        rw [← hn]
        exact hnb
      rw [chunkSegments_last_step d b p (by linarith) hp 0 k hk1 hk2]
      by_cases hskip : d - ffmpegFinalSs b p k < 1
      · rw [if_pos hskip]
        right
        linarith
      · rw [if_neg hskip]
        left
        refine ⟨_, List.mem_singleton_self _, hx, ?_⟩
        show x < ffmpegFinalSs b p k + (d - ffmpegFinalSs b p k)
        linarith
    | succ f =>
      have hk2 : ((k + 1 : ℕ) : ℚ) * b < d := hlt (k + 1) (by omega)
      rw [chunkSegments_kept_step d b p hb1 hp (f + 1) k hk1 hk2]
      by_cases hcov : x < ffmpegFinalSs b p k + ffmpegFinalT d b p k
      · left
        exact ⟨_, List.mem_cons_self _ _, hx, hcov⟩
      · have hx' : ffmpegFinalSs b p (k + 1) ≤ x := by
          have h1 := ffmpegFinalSs_le b p (by linarith) hp (k + 1)
          have h2 := ffmpegFinalEndPoint_ge d b p hp k hk2
          have h3 := storedEnd_eq d b p k
          have h4 := not_lt.mp hcov
          linarith
        rcases ih (k + 1) (by omega) (by omega) x hx' hxd with ⟨w, hw, hws⟩ | htail
        · left
          exact ⟨w, List.mem_cons_of_mem _ hw, hws⟩
        · right
          exact htail

/-- Claim C4, amended: under the claim's hypotheses and the additional
hypothesis `1 ≤ target_length - overlap` (satisfied by every CLI configuration,
whose durations are integers; the counterexample `C4_counterexample` shows the
claim as stated fails), consecutive planner windows leave no gap and every
point of `[0, duration)` is covered by some window, except possibly points less
than the 1-second minimum-viable-chunk threshold away from the end of the
video (the discarded sub-threshold tail). -/
theorem C4_amended (d t o : ℚ) (hd : 0 < d) (ht : 0 < t) (ho : 0 ≤ o)
    (hot : o < t) (hbase : 1 ≤ t - o) :
    noGaps (create_video_chunks d t o) ∧
    coversExceptSubThresholdTail (create_video_chunks d t o) d := by
  by_cases hcond : 0 < t ∧ t < d
  · have hbpos : (0 : ℚ) < t - o := by linarith
    have hppos : (0 : ℚ) ≤ o / 2 := by linarith
    obtain ⟨hnb, hlt⟩ := numSegments_facts d (t - o) hd hbpos
    have hlist : create_video_chunks d t o =
        chunkSegments d (t - o) (o / 2) (numSegments d (t - o)) 0 := by
      unfold create_video_chunks
      rw [if_pos hcond, if_neg (by linarith)]
    unfold noGaps coversExceptSubThresholdTail
    rw [hlist]
    constructor
    · exact chunkSegments_noGaps d (t - o) (o / 2) hbase hppos _ hnb hlt _ 0 (by omega)
    · intro x hx hxd
      have hx0 : ffmpegFinalSs (t - o) (o / 2) 0 ≤ x := by
        rw [ffmpegFinalSs_zero _ _ hppos]
        exact hx
      exact chunkSegments_covers d (t - o) (o / 2) hbase hppos _ hnb hlt _ 0
        (numSegments_pos d (t - o)) (by omega) x hx0 hxd
  · have hlist : create_video_chunks d t o = [(0, d)] := by
      unfold create_video_chunks
      rw [if_neg hcond]
    unfold noGaps coversExceptSubThresholdTail
    rw [hlist]
    constructor
    · exact List.chain'_singleton _
    · intro x hx hxd
      left
      exact ⟨(0, d), List.mem_singleton_self _, hx, hxd⟩

/-- Claim C4 amended witness: at `duration=1000, target=300, overlap=60` the
planner's windows are gap-free and cover `[0, 1000)` up to a sub-threshold
tail. -/
theorem C4_amended_witness :
    noGaps (create_video_chunks 1000 300 60) ∧
    coversExceptSubThresholdTail (create_video_chunks 1000 300 60) 1000 :=
  C4_amended 1000 300 60 (by norm_num) (by norm_num) (by norm_num) (by norm_num)
    (by norm_num)

/-- Python `str.split(sep)` for a one-character separator, modelled
structurally on the character list.  Agrees with Python's semantics: the empty
string yields `[""]`, adjacent separators yield empty components, and a
trailing separator yields a trailing empty component. -/
def splitOnChar (c : Char) : List Char → List (List Char)
  | [] => [[]]
  | x :: xs =>
    let r := splitOnChar c xs
    if x = c then [] :: r
    else
      match r with
      | [] => [[x]]
      | y :: ys => (x :: y) :: ys

/-- Python `file_object.name.split('/')[-1] if file_object.name else
f"unknown_chunk_{i}"` as computed by the merge reconciler
(video_processing_utils.py, line 173). -/
def merge_name_part (name : String) (i : ℕ) : String :=
  if name ≠ "" then String.mk ((splitOnChar (Char.ofNat 47) name.data).getLastD [])
  else "unknown_chunk_" ++ toString i

/-- Python `os.path.join(video_temp_dir, f"summary_{name_part}.md")` as
computed by the merge reconciler (video_processing_utils.py, lines 174-178). -/
def expected_summary_path (videoTempDir name : String) (i : ℕ) : String :=
  videoTempDir ++ "/" ++ ("summary_" ++ merge_name_part name i ++ ".md")

/-- Python `file_object.name.split('/')[-1] if file_object.name else
f"unknown_chunk_{i}"` as computed by the summary writer
(summarize_video.py, line 101). -/
def writer_name_part (name : String) (i : ℕ) : String :=
  if name ≠ "" then String.mk ((splitOnChar (Char.ofNat 47) name.data).getLastD [])
  else "unknown_chunk_" ++ toString i

/-- Python `os.path.join(video_temp_dir, f"summary_{name_part}.md")` as
computed by the summary writer (summarize_video.py, lines 103-104). -/
def summary_artifact_path (videoTempDir name : String) (i : ℕ) : String :=
  videoTempDir ++ "/" ++ ("summary_" ++ writer_name_part name i ++ ".md")

/-- `_generate_individual_summaries` (summarize_video.py, lines 66-122),
restricted to its observable artifact bookkeeping: for each uploaded handle (in
order) the oracle `summarize` yields the summary text produced for it (`none`
when generation fails; the empty string is also rejected, matching Python's
truthiness test `if summary_text:` at line 99, and a successful write is
assumed).  Returns `individual_summary_file_paths`, the list of written
summary paths. -/
def generate_individual_summaries (videoTempDir : String) (handles : List String)
    (summarize : ℕ → String → Option String) : List String :=
  handles.enum.filterMap fun pr =>
    match summarize pr.1 pr.2 with
    | some summaryText =>
      if summaryText ≠ "" then some (summary_artifact_path videoTempDir pr.2 pr.1)
      else none
    | none => none

/-- The `final_summary_parts` accumulation loop of `merge_chunk_summaries`
(video_processing_utils.py, lines 170-201): for each uploaded handle in
original order, the expected summary path is derived; if it is listed in
`individual_summary_file_paths` the file is read from `disk` and its content
(prefixed by the empty header of line 184) is appended; a missing listing or a
failed read (lines 195-201) skips the part. -/
def merge_parts (videoTempDir : String) (handles : List String)
    (individualSummaryFilePaths : List String) (disk : String → Option String) :
    List String :=
  handles.enum.filterMap fun pr =>
    if expected_summary_path videoTempDir pr.2 pr.1 ∈ individualSummaryFilePaths then
      match disk (expected_summary_path videoTempDir pr.2 pr.1) with
      | some content => some ("" ++ content)
      | none => none
    else none

/-- `merge_chunk_summaries` (video_processing_utils.py, lines 144-217) as a
function from the collected parts to the written merged artifact: `none` when
`final_summary_parts` is empty (no output file written, lines 203-204),
otherwise the parts joined by the fixed separator (line 206). -/
def merge_chunk_summaries (videoTempDir : String) (handles : List String)
    (individualSummaryFilePaths : List String) (disk : String → Option String) :
    Option String :=
  let finalSummaryParts :=
    merge_parts videoTempDir handles individualSummaryFilePaths disk
  if finalSummaryParts.isEmpty then none
  else some (String.intercalate "\n\n---\n\n" finalSummaryParts)

/-- Claim C7: the merged output is determined by the handle list's order and
the artifact contents alone — permuting the arrival order of the paths in
`individual_summary_file_paths` leaves the merged output unchanged, because the
merge loop only tests membership in that list (video_processing_utils.py,
line 180) and iterates in handle order. -/
theorem C7_merge_perm_invariance (videoTempDir : String)
    (handles paths paths2 : List String) (disk : String → Option String)
    (hperm : paths.Perm paths2) :
    merge_chunk_summaries videoTempDir handles paths disk =
      merge_chunk_summaries videoTempDir handles paths2 disk := by
  have hparts : merge_parts videoTempDir handles paths disk =
      merge_parts videoTempDir handles paths2 disk := by
    unfold merge_parts
    apply List.filterMap_congr
    intro pr hpr
    have hmem := hperm.mem_iff (a := expected_summary_path videoTempDir pr.2 pr.1)
    by_cases hin : expected_summary_path videoTempDir pr.2 pr.1 ∈ paths
    · rw [if_pos hin, if_pos (hmem.mp hin)]
    · rw [if_neg hin, if_neg (fun h => hin (hmem.mpr h))]
  unfold merge_chunk_summaries
  rw [hparts]

/-- Claim C7 witness: with one uploaded handle and two listed artifact paths,
swapping the arrival order of the paths leaves the merged output unchanged. -/
theorem C7_merge_perm_invariance_witness :
    merge_chunk_summaries "t" ["files/abc"] ["t/summary_abc.md", "other.md"]
        (fun q => if q = "t/summary_abc.md" then some "S" else none) =
      merge_chunk_summaries "t" ["files/abc"] ["other.md", "t/summary_abc.md"]
        (fun q => if q = "t/summary_abc.md" then some "S" else none) :=
  C7_merge_perm_invariance "t" ["files/abc"] _ _ _
    (List.Perm.swap "other.md" "t/summary_abc.md" [])

/-- Claim C9: when no summary artifact matches any uploaded handle, the
collected parts are empty and `merge_chunk_summaries` writes no output file
(result `none`) and raises no exception (it is a total function)
(video_processing_utils.py, lines 203-204). -/
theorem C9_merge_empty_noop (videoTempDir : String) (handles paths : List String)
    (disk : String → Option String)
    (h : ∀ pr ∈ handles.enum,
      expected_summary_path videoTempDir pr.2 pr.1 ∉ paths) :
    merge_chunk_summaries videoTempDir handles paths disk = none := by
  have hparts : merge_parts videoTempDir handles paths disk = [] := by
    unfold merge_parts
    rw [List.filterMap_eq_nil_iff]
    intro pr hpr
    rw [if_neg (h pr hpr)]
  unfold merge_chunk_summaries
  rw [hparts]
  rfl

/-- Claim C9 witness: a single handle whose derived artifact path is not among
the listed paths produces no merged output. -/
theorem C9_merge_empty_noop_witness :
    merge_chunk_summaries "t" ["files/a"] ["other"] (fun _ => none) = none :=
  C9_merge_empty_noop "t" ["files/a"] ["other"] (fun _ => none) (by decide)

/-- Lemma: prepending the empty header leaves the summary text unchanged. -/
theorem empty_header_append (s : String) : "" ++ s = s := by
  cases s
  rfl

/-- Claim C10: the derived-key schemes of the summary writer
(summarize_video.py, lines 99-104) and the merge reconciler
(video_processing_utils.py, lines 171-178) agree — the writer's artifact path
equals the merger's expected path for every handle — and hence every summary
successfully written (and passed through unchanged in
`individual_summary_file_paths`, with the filesystem returning the written
text) is included in the merged parts. -/
theorem C10_key_agreement (videoTempDir : String) (handles : List String)
    (summarize : ℕ → String → Option String) (disk : String → Option String)
    (i : ℕ) (name text : String)
    (hmem : (i, name) ∈ handles.enum)
    (hsum : summarize i name = some text)
    (hne : text ≠ "")
    (hdisk : disk (summary_artifact_path videoTempDir name i) = some text) :
    summary_artifact_path videoTempDir name i =
        expected_summary_path videoTempDir name i ∧
    summary_artifact_path videoTempDir name i ∈
        generate_individual_summaries videoTempDir handles summarize ∧
    text ∈ merge_parts videoTempDir handles
        (generate_individual_summaries videoTempDir handles summarize) disk := by
  have hkey : summary_artifact_path videoTempDir name i =
      expected_summary_path videoTempDir name i := rfl
  have hgen : summary_artifact_path videoTempDir name i ∈
      generate_individual_summaries videoTempDir handles summarize := by
    unfold generate_individual_summaries
    rw [List.mem_filterMap]
    exact ⟨(i, name), hmem, by simp [hsum, hne]⟩
  refine ⟨hkey, hgen, ?_⟩
  unfold merge_parts
  rw [List.mem_filterMap]
  refine ⟨(i, name), hmem, ?_⟩
  have hin : expected_summary_path videoTempDir name i ∈
      generate_individual_summaries videoTempDir handles summarize := by
    rw [← hkey]
    exact hgen
  have hdisk2 : disk (expected_summary_path videoTempDir name i) = some text := by
    rw [← hkey]
    exact hdisk
  show (if expected_summary_path videoTempDir name i ∈
      generate_individual_summaries videoTempDir handles summarize then
        match disk (expected_summary_path videoTempDir name i) with
        | some content => some ("" ++ content)
        | none => none
      else none) = some text
  rw [if_pos hin, hdisk2]
  show some ("" ++ text) = some text
  rw [empty_header_append]

/-- Claim C10 witness: for the handle `files/abc` with summary text `S`, the
writer's path `t/summary_abc.md` is the merger's expected path, is listed, and
its text is merged. -/
theorem C10_key_agreement_witness :
    summary_artifact_path "t" "files/abc" 0 = expected_summary_path "t" "files/abc" 0 ∧
    summary_artifact_path "t" "files/abc" 0 ∈
      generate_individual_summaries "t" ["files/abc"] (fun _ _ => some "S") ∧
    "S" ∈ merge_parts "t" ["files/abc"]
      (generate_individual_summaries "t" ["files/abc"] (fun _ _ => some "S"))
      (fun q => if q = "t/summary_abc.md" then some "S" else none) :=
  C10_key_agreement "t" ["files/abc"] (fun _ _ => some "S")
    (fun q => if q = "t/summary_abc.md" then some "S" else none)
    0 "files/abc" "S" (by decide) rfl (by decide) (by decide)

/-- How processing of a single video ended (summarize_video.py, lines 196-292):
`probeFailed` is the early return at line 205, `noChunks`/`noUploads`/
`noSummaries` the early returns at lines 217-236, `unhandledError` the
`except` handler at lines 282-286, `completed` a full run. -/
inductive VideoOutcome where
  | probeFailed
  | noChunks
  | noUploads
  | noSummaries
  | unhandledError
  | completed
  deriving DecidableEq

/-- Observable effects of `_cleanup_processing_resources` (summarize_video.py,
lines 124-162): which remote handle names had deletion attempted (individual
failures are logged and tolerated, lines 149-153), and whether the local temp
directory was removed (lines 155-160: only when it exists and
`keep_temp_files` is not set). -/
structure CleanupResult where
  deletedRemoteNames : List String
  removedTempDir : Bool
  deriving DecidableEq

/-- `_cleanup_processing_resources` (summarize_video.py, lines 124-162). -/
def cleanup_processing_resources (uploadedFileObjects : List String)
    (tempDirExists keepTempFiles : Bool) : CleanupResult :=
  { deletedRemoteNames := uploadedFileObjects
    removedTempDir := tempDirExists && !keepTempFiles }

/-- Oracle for the external effects of one `process_single_video` run:
`probedDuration` is the result of `get_video_duration` (line 202),
`chunkDetailsList` the windows materialized in phase 1, `uploadedFileObjects`
the handle names still held when the `finally` block runs, and
`individualSummaryFilePaths` the summary artifacts written in phase 3;
`unhandledErrorRaised` marks an unexpected exception inside the `try` block
(caught by the `except` at line 282). -/
structure VideoRun where
  probedDuration : Option ℚ
  chunkDetailsList : List (ℚ × ℚ)
  uploadedFileObjects : List String
  individualSummaryFilePaths : List String
  unhandledErrorRaised : Bool
  deriving DecidableEq

/-- Result of `process_single_video`: the outcome and, when the terminal
cleanup phase ran, its effects (`none` when it never ran). -/
structure VideoResult where
  outcome : VideoOutcome
  cleanup : Option CleanupResult
  deriving DecidableEq

/-- Control flow of `process_single_video` (summarize_video.py,
lines 165-292).  When the duration probe fails the function returns at
line 205, before the `try`/`finally` block, so no cleanup phase runs.  Every
path inside the `try` block — the empty-chunks, empty-uploads and
empty-summaries early returns, an unhandled exception caught by `except`, or
completion — reaches the `finally` block (lines 287-291), which always calls
`_cleanup_processing_resources` on the handles still held; the temp directory
exists there because it was created at lines 196-200. -/
def process_single_video (run : VideoRun) (keepTempFiles : Bool) : VideoResult :=
  match run.probedDuration with
  | none => { outcome := VideoOutcome.probeFailed, cleanup := none }
  | some _ =>
    let outcome :=
      if run.unhandledErrorRaised then VideoOutcome.unhandledError
      else if run.chunkDetailsList.isEmpty then VideoOutcome.noChunks
      else if run.uploadedFileObjects.isEmpty then VideoOutcome.noUploads
      else if run.individualSummaryFilePaths.isEmpty then VideoOutcome.noSummaries
      else VideoOutcome.completed
    { outcome := outcome
      cleanup := some (cleanup_processing_resources run.uploadedFileObjects true
        keepTempFiles) }

/-- Claim C1 counterexample: when the duration probe fails, the video is
skipped by the `return` at summarize_video.py line 205, which sits before the
`try`/`finally` block — the terminal cleanup phase does not execute (and the
freshly created temp directory is left behind), contradicting the claim that
cleanup runs regardless of how processing ended, including probe failure. -/
theorem C1_probe_failure_counterexample :
    process_single_video
        { probedDuration := none
          chunkDetailsList := []
          uploadedFileObjects := []
          individualSummaryFilePaths := []
          unhandledErrorRaised := false } false =
      { outcome := VideoOutcome.probeFailed, cleanup := none } := by
  rfl

/-- Claim C1, amended: for every run in which the duration probe succeeds, the
terminal cleanup phase executes regardless of how processing ended (no chunks,
no uploads, no summaries, an unhandled error, or completion): it attempts
deletion of every remote handle still held and removes the video's local temp
directory exactly when the retain-temp-files flag is not set.  When the probe
fails the video is skipped before the cleanup-guarded region and no cleanup
phase runs (`C1_probe_failure_counterexample`). -/
theorem C1_cleanup_amended (run : VideoRun) (keepTempFiles : Bool)
    (hprobe : run.probedDuration.isSome) :
    (process_single_video run keepTempFiles).cleanup =
      some { deletedRemoteNames := run.uploadedFileObjects
             removedTempDir := !keepTempFiles } := by
  unfold process_single_video
  cases hp : run.probedDuration with
  | none => rw [hp] at hprobe; simp at hprobe
  | some dur =>
    unfold cleanup_processing_resources
    simp [Bool.true_and]

/-- Claim C1 amended witness: a run whose probe succeeds and which fails at the
summary phase still runs cleanup, deleting its uploaded handle and removing
the temp directory. -/
theorem C1_cleanup_amended_witness :
    (process_single_video
        { probedDuration := some 5
          chunkDetailsList := [(0, 5)]
          uploadedFileObjects := ["files/a"]
          individualSummaryFilePaths := []
          unhandledErrorRaised := false } false).cleanup =
      some { deletedRemoteNames := ["files/a"], removedTempDir := true } :=
  C1_cleanup_amended
    { probedDuration := some 5
      chunkDetailsList := [(0, 5)]
      uploadedFileObjects := ["files/a"]
      individualSummaryFilePaths := []
      unhandledErrorRaised := false } false rfl

/-- The overlap-validation step of `parse_arguments` (cli.py, lines 62-65):
when `max_chunk_duration > 0` and `overlap_duration >= max_chunk_duration`,
the overlap is clamped to `max(0, max_chunk_duration - 1)` with a warning;
otherwise it is returned unchanged.  Both arguments are `type=int`. -/
def adjust_overlap_duration (maxChunkDuration overlapDuration : ℤ) : ℤ :=
  if 0 < maxChunkDuration ∧ maxChunkDuration ≤ overlapDuration then
    max 0 (maxChunkDuration - 1)
  else
    overlapDuration

/-- Claim C8 counterexample: with `max_chunk_duration = 0` (chunking disabled)
and `overlap_duration = 5`, the overlap is not strictly less than the target
chunk duration, yet `parse_arguments` leaves it unchanged at `5` instead of
clamping it to `max(0, 0 - 1) = 0`, because the guard at cli.py line 62 also
requires `max_chunk_duration > 0`. -/
theorem C8_counterexample :
    ¬ ((5 : ℤ) < 0) ∧ adjust_overlap_duration 0 5 = 5 ∧
    (5 : ℤ) ≠ max 0 ((0 : ℤ) - 1) := by
  refine ⟨by decide, ?_, by decide⟩
  rfl

/-- Claim C8, amended: for every parsed configuration in which the target
chunk duration is positive and the overlap duration is not strictly less than
it, `parse_arguments` warns and clamps the overlap to
`max(0, target chunk duration - 1)`; for all other configurations — including
when the target chunk duration is `≤ 0`, i.e. chunking disabled — the overlap
is returned unchanged (`C8_counterexample` shows the claim without the
positivity condition fails). -/
theorem C8_overlap_clamp_amended (m o : ℤ) :
    (0 < m ∧ m ≤ o → adjust_overlap_duration m o = max 0 (m - 1)) ∧
    (¬ (0 < m ∧ m ≤ o) → adjust_overlap_duration m o = o) := by
  constructor
  · intro h
    unfold adjust_overlap_duration
    rw [if_pos h]
  · intro h
    unfold adjust_overlap_duration
    rw [if_neg h]

/-- Claim C8 amended witness: the default configuration `target=900` clamps
`overlap=900` to `899` and leaves `overlap=60` unchanged. -/
theorem C8_overlap_clamp_amended_witness :
    adjust_overlap_duration 900 900 = max 0 (900 - 1) ∧
    adjust_overlap_duration 900 60 = 60 :=
  ⟨(C8_overlap_clamp_amended 900 900).1 (by decide),
    (C8_overlap_clamp_amended 900 60).2 (by decide)⟩
